import Mathlib

/-!
Verification of the VidManager library core: the folder-scan classifier,
sidecar (thumbnail / subtitle / metadata) resolution, the SRT and ASS
subtitle transcoders, the export / import index round trip and the
path-based relink matcher.  All definitions in the `Vid` namespace are
shallow embeddings of the TypeScript source (`App.tsx`, `fileUtils`,
`types.ts`); strings are modelled as Lean `String` / `List Char` and
JavaScript `File` handles as opaque numeric identifiers.
-/

set_option maxRecDepth 10000

namespace Vid

/-- `startsWithL s t` : `t` is a leading segment of `s`
(JavaScript `s.startsWith(t)` on the char level). -/
def startsWithL : List Char → List Char → Bool
  | _, [] => true
  | [], _ :: _ => false
  | a :: s, b :: t => a == b && startsWithL s t

/-- substring containment (JavaScript `s.includes(t)`). -/
def containsSubL : List Char → List Char → Bool
  | [], sub => startsWithL [] sub
  | c :: t, sub => startsWithL (c :: t) sub || containsSubL t sub

/-- JavaScript `s.startsWith(t)` on `String`. -/
def strStartsWith (s t : String) : Bool := startsWithL s.data t.data

/-- JavaScript `s.endsWith(t)` on `String`. -/
def strEndsWith (s t : String) : Bool := startsWithL s.data.reverse t.data.reverse

/-- JavaScript `s.includes(t)` on `String`. -/
def strContains (s t : String) : Bool := containsSubL s.data t.data

/-- JavaScript `str.split(c)` for a one-character separator: the list of
chunks between occurrences of `c` (never empty; `"" ↦ [""]`). -/
def splitOnChar (c : Char) : List Char → List (List Char)
  | [] => [[]]
  | a :: s =>
    let r := splitOnChar c s
    if a = c then [] :: r
    else
      match r with
      | [] => [[a]]
      | h :: t => (a :: h) :: t

/-- JavaScript `Array.prototype.pop` on the chunks of a split: the last
element, with a default for the (impossible) empty list. -/
def lastElemD : List (List Char) → List Char → List Char
  | [], d => d
  | [x], _ => x
  | _ :: t, d => lastElemD t d

/-- `v.relativePath.split('/').pop()` from the relink matcher
(`App.tsx`, `UPDATE_PATHS`); the JS `fileName || ''` fallback is the
identity here because `split` always returns a non-empty array. -/
def lastSegment (path : String) : String := ⟨lastElemD (splitOnChar '/' path.data) []⟩

/-- `file.name.substring(0, file.name.lastIndexOf('.'))` — everything
before the last dot; the empty string when there is no dot (JS
`substring(0, -1)` clamps to `substring(0, 0)`). -/
def jsStripExt (s : String) : String :=
  ⟨((s.data.reverse.dropWhile (fun c => c ≠ '.')).drop 1).reverse⟩

/-- JavaScript `s.toLowerCase()`, character by character (`String.toLower`
is not kernel-reducible). -/
def strToLower (s : String) : String := ⟨s.data.map Char.toLower⟩

/-- the stripped, lower-cased name used as the matching key:
`file.name.substring(0, file.name.lastIndexOf('.')).toLowerCase()`. -/
def strippedLowerName (s : String) : String := strToLower (jsStripExt s)

/-- `SUPPORTED_EXTENSIONS` from `types.ts`. -/
def SUPPORTED_EXTENSIONS : List String := [".mp4", ".mkv", ".ts", ".rmvb", ".avi", ".flv", ".webm"]

/-- `SUBTITLE_EXTENSIONS` from `types.ts`. -/
def SUBTITLE_EXTENSIONS : List String := [".srt", ".vtt", ".ass", ".ssa"]

/-- `isVideoFile` from `fileUtils`: some supported extension ends the
lower-cased file name. -/
def isVideoFile (name : String) : Bool :=
  SUPPORTED_EXTENSIONS.any (fun ext => strEndsWith (strToLower name) ext)

/-- `isSubtitleFile` from `fileUtils`. -/
def isSubtitleFile (name : String) : Bool :=
  SUBTITLE_EXTENSIONS.any (fun ext => strEndsWith (strToLower name) ext)

/-- line-ending normalisation of `srtToVtt`:
`replace(/\r\n/g, '\n').replace(/\r/g, '\n')`. -/
def normalizeEOL : List Char → List Char
  | [] => []
  | '\r' :: '\n' :: s => '\n' :: normalizeEOL s
  | '\r' :: s => '\n' :: normalizeEOL s
  | c :: s => c :: normalizeEOL s

/-- the global regex replacement
`text.replace(/(\d{2}:\d{2}:\d{2}),(\d{3})/g, '$1.$2')` of `srtToVtt`:
scan left to right; at each position a 12-character window
`dd:dd:dd,ddd` is rewritten with a period and skipped, otherwise one
character is emitted unchanged. -/
def replaceSrtTimes : List Char → List Char
  | a :: b :: ':' :: c :: d :: ':' :: e :: f :: ',' :: g :: h :: i :: s =>
    if a.isDigit && b.isDigit && c.isDigit && d.isDigit && e.isDigit && f.isDigit
        && g.isDigit && h.isDigit && i.isDigit then
      a :: b :: ':' :: c :: d :: ':' :: e :: f :: '.' :: g :: h :: i :: replaceSrtTimes s
    else
      a :: replaceSrtTimes (b :: ':' :: c :: d :: ':' :: e :: f :: ',' :: g :: h :: i :: s)
  | c :: s => c :: replaceSrtTimes s
  | [] => []

/-- `srtToVtt` from `fileUtils`: header, normalised line endings,
comma→period in every `HH:MM:SS,mmm` timestamp. -/
def srtToVtt (srtContent : String) : String :=
  ⟨"WEBVTT\n\n".data ++ replaceSrtTimes (normalizeEOL srtContent.data)⟩

end Vid

namespace Vid

/-- scan for the first `'}'`, returning the rest of the input after it. -/
def scanTag : List Char → Option (List Char)
  | [] => none
  | '}' :: s => some s
  | _ :: s => scanTag s

/-- a match of the regex `{[^}]+}` anchored at the position right after a
`'{'`: at least one non-`'}'` character followed by `'}'`; returns the
input after the closing brace. -/
def findTagEnd : List Char → Option (List Char)
  | [] => none
  | '}' :: _ => none
  | _ :: s => scanTag s

/-- fuel-indexed worker for `text.replace(/{[^}]+}/g, '')`: leftmost
matches are removed, a `'{'` without a matching close is kept. -/
def stripTagsF : Nat → List Char → List Char
  | 0, _ => []
  | _ + 1, [] => []
  | fuel + 1, '{' :: s =>
    match findTagEnd s with
    | some rest => stripTagsF fuel rest
    | none => '{' :: stripTagsF fuel s
  | fuel + 1, c :: s => c :: stripTagsF fuel s

/-- `text.replace(/{[^}]+}/g, '')` from `assToVtt` (override-tag
stripping); the fuel is an upper bound on the number of scan steps. -/
def stripTags (l : List Char) : List Char := stripTagsF l.length l

/-- `text.replace(/\\N/g, '\n')` from `assToVtt`. -/
def replaceEscBigN : List Char → List Char
  | '\\' :: 'N' :: s => '\n' :: replaceEscBigN s
  | c :: s => c :: replaceEscBigN s
  | [] => []

/-- `text.replace(/\\n/g, '\n')` from `assToVtt`. -/
def replaceEscSmallN : List Char → List Char
  | '\\' :: 'n' :: s => '\n' :: replaceEscSmallN s
  | c :: s => c :: replaceEscSmallN s
  | [] => []

/-- the indices at which character `c` occurs in `s`. -/
def occIndices (s : List Char) (c : Char) : List Nat :=
  (List.range s.length).filter (fun i => s.getD i ' ' = c)

/-- `findNthOccurrence` from `assToVtt`: the index of the `n`-th
occurrence of `c` in `s` (`n ≥ 1`), or `none` in place of JS `-1`. -/
def findNthOccurrence (s : List Char) (c : Char) (n : Nat) : Option Nat :=
  (occIndices s c).get? (n - 1)

/-- JS `s.padEnd(3, '0')`. -/
def padEnd3 (s : List Char) : List Char := s ++ List.replicate (3 - s.length) '0'

/-- `formatTime` from `assToVtt`: split on `'.'`, keep the H:MM:SS part,
right-pad the (centisecond) fraction — defaulted to `"00"` when missing
or empty, JS `parts[1] || '00'` — to three digits. -/
def formatTime (t : List Char) : List Char :=
  let parts := splitOnChar '.' t
  let hms := parts.headD []
  let cs0 := (parts.get? 1).getD []
  let cs := if cs0 = [] then ['0', '0'] else cs0
  hms ++ '.' :: padEnd3 cs

/-- the rest of a list after its first occurrence of `c`
(JS `line.substring(line.indexOf(c) + 1)`, `none` when `indexOf` is -1). -/
def afterFirst (c : Char) : List Char → Option (List Char)
  | [] => none
  | a :: s => if a = c then some s else afterFirst c s

/-- the cue text contributed by one line of `assToVtt`: empty unless the
line starts with `Dialogue:`, has a comma, and splits into at least nine
comma-separated fields after the first comma. -/
def assLine (line : List Char) : List Char :=
  if startsWithL line "Dialogue:".data then
    match afterFirst ',' line with
    | none => []
    | some rest =>
      let parts := splitOnChar ',' rest
      if parts.length ≥ 9 then
        let start := parts.getD 1 []
        let stop := parts.getD 2 []
        let text0 :=
          match findNthOccurrence rest ',' 9 with
          | some idx => rest.drop (idx + 1)
          | none => List.intercalate [','] (parts.drop 9)
        let text := replaceEscSmallN (replaceEscBigN (stripTags text0))
        formatTime start ++ " --> ".data ++ formatTime stop ++ '\n' :: (text ++ "\n\n".data)
      else []
  else []

/-- `line.split(/\r?\n/)` from `assToVtt`. -/
def splitLines : List Char → List (List Char)
  | [] => [[]]
  | '\r' :: '\n' :: s => [] :: splitLines s
  | '\n' :: s => [] :: splitLines s
  | c :: s =>
    match splitLines s with
    | [] => [[c]]
    | h :: t => (c :: h) :: t

/-- `assToVtt` from `fileUtils`. -/
def assToVtt (assContent : String) : String :=
  ⟨"WEBVTT\n\n".data ++ ((splitLines assContent.data).map assLine).flatten⟩

/-- `VideoMetadata` from `types.ts` (the optional technical fields
`duration`/`width`/`height` are never produced by the ingestion code and
are omitted). -/
structure VideoMetadata where
  title : String
  plot : String
  tags : List String
  deriving Repr, DecidableEq

/-- `SubtitleTrack` from `types.ts`; a JS `File` handle is an opaque
numeric identifier, absent (`none`) once it is lost to serialization. -/
structure SubtitleTrack where
  label : String
  language : String
  fileHandle : Option Nat
  deriving Repr, DecidableEq

/-- `VideoAsset` from `types.ts`. -/
structure VideoAsset where
  id : String
  collectionId : String
  fileName : String
  relativePath : String
  fileHandle : Option Nat
  thumbnailUrl : Option String
  metadata : VideoMetadata
  size : Nat
  subtitles : List SubtitleTrack
  deriving Repr, DecidableEq

/-- `Collection` from `types.ts`. -/
structure Collection where
  id : String
  name : String
  thumbnailUrl : Option String
  deriving Repr, DecidableEq

/-- the reducer's state: `collections` and `videos` lists. -/
structure AppState where
  collections : List Collection
  videos : List VideoAsset
  deriving Repr, DecidableEq

/-- an image indexed by `handleImportFiles`: `folderImages` stores
`{ name: nameWithoutExt (lower-cased), url: URL.createObjectURL(file) }`. -/
structure ImageAsset where
  name : String
  url : String
  deriving Repr, DecidableEq

/-- JavaScript falsiness of a `string | undefined` value: `undefined`
and the empty string are falsy. -/
def jsFalsy : Option String → Bool
  | none => true
  | some s => s = ""

/-- the `priorityNames` constant of `handleImportFiles`. -/
def priorityNames : List String := ["poster", "cover", "folder", "default"]

/-- the predicate of priority 1: `priorityNames.includes(asset.name)`. -/
def isPriorityImage (a : ImageAsset) : Bool := priorityNames.contains a.name

/-- the predicate of priority 2: `asset.name.includes('poster')`. -/
def isPosterImage (a : ImageAsset) : Bool := strContains a.name "poster"

/-- the predicate of priority 3: `asset.name === videoNameWithoutExt`. -/
def isExactImage (videoNameWithoutExt : String) (a : ImageAsset) : Bool :=
  a.name = videoNameWithoutExt

/-- the thumbnail-selection chain of `handleImportFiles` (before the
generated-thumbnail fallback): priority-name match, then a name
containing `"poster"`, then a name equal to the video's base name, each
stage guarded by the JS truthiness test `if (!thumbUrl)`.  A `none`
result means the code defers to `generateVideoThumbnail`. -/
def selectThumbnail (assetsInFolder : List ImageAsset) (videoNameWithoutExt : String) :
    Option String :=
  let u1 : Option String :=
    match assetsInFolder.find? isPriorityImage with
    | some a => some a.url
    | none => none
  let u2 : Option String :=
    if jsFalsy u1 then
      match assetsInFolder.find? isPosterImage with
      | some a => some a.url
      | none => u1
    else u1
  let u3 : Option String :=
    if jsFalsy u2 then
      match assetsInFolder.find? (isExactImage videoNameWithoutExt) with
      | some a => some a.url
      | none => u2
    else u2
  u3

/-- the subtitle-matching filter of `handleImportFiles`:
`subsInFolder.filter(sub => sub.name.toLowerCase().startsWith(videoNameWithoutExt))`
— note that it tests the full lower-cased file name, extension included. -/
def matchSubtitles (subsInFolder : List String) (videoNameWithoutExt : String) : List String :=
  subsInFolder.filter (fun subName => strStartsWith (strToLower subName) videoNameWithoutExt)

/-- the language guess of `handleImportFiles`: split the full
lower-cased subtitle file name on `'.'`; when there are more than two
segments and the second-to-last has exactly two characters it is the
language, otherwise the default `"en"`. -/
def inferLanguage (subName : String) : String :=
  let parts := splitOnChar '.' (strToLower subName).data
  if parts.length > 2 then
    let possibleLang := parts.getD (parts.length - 2) []
    if possibleLang.length = 2 then ⟨possibleLang⟩ else "en"
  else "en"

/-- JavaScript `a || b` on an optional string `a` (`?.textContent || b`):
`b` when `a` is missing or empty. -/
def jsStrOr (a : Option String) (b : String) : String :=
  match a with
  | some s => if s = "" then b else s
  | none => b

/-- the fields of a metadata sidecar document that `parseNFO` queries:
the text content of the first `title`, `plot` and `outline` elements
(`none` when the element is absent) and the text contents of all
`genre` and all `tag` elements in document order. -/
structure NFODoc where
  titleText : Option String
  plotText : Option String
  outlineText : Option String
  genreTexts : List String
  tagTexts : List String
  deriving Repr, DecidableEq

/-- `parseNFO` from `fileUtils`: title from `<title>` (empty default),
plot from `<plot>` falling back to `<outline>` (empty default), tags
from every non-empty `<genre>` followed by every non-empty `<tag>`. -/
def parseNFO (doc : NFODoc) : VideoMetadata :=
  { title := jsStrOr doc.titleText ""
    plot := jsStrOr doc.plotText (jsStrOr doc.outlineText "")
    tags := doc.genreTexts.filter (fun t => t ≠ "") ++ doc.tagTexts.filter (fun t => t ≠ "") }

/-- the metadata assembly of `handleImportFiles`: defaults (title = file
name without extension, empty plot, no tags), overwritten wholesale by
the parser output when a metadata sidecar was found — `parseNFO` always
returns all three fields, so the JS spread `{...metadata, ...nfoData}`
replaces every field. -/
def ingestMetadata (fileName : String) (nfo : Option NFODoc) : VideoMetadata :=
  let metadata : VideoMetadata := { title := jsStripExt fileName, plot := "", tags := [] }
  match nfo with
  | none => metadata
  | some doc =>
    let nfoData := parseNFO doc
    { title := nfoData.title, plot := nfoData.plot, tags := nfoData.tags }

end Vid

namespace Vid

/-- a freshly granted file of a relink batch: its `name`, its
`webkitRelativePath` (empty when the browser supplies none) and its live
handle. -/
structure FileEntry where
  name : String
  relativePath : String
  handle : Nat
  deriving Repr, DecidableEq

/-- the key under which `UPDATE_PATHS` stores a file:
`f.webkitRelativePath || f.name`. -/
def keyOf (f : FileEntry) : String :=
  if f.relativePath = "" then f.name else f.relativePath

/-- one `Map.set` step: existing keys are overwritten in place, new keys
are appended (JS `Map` preserves first-insertion order). -/
def mapSet (m : List (String × Nat)) (k : String) (v : Nat) : List (String × Nat) :=
  if m.any (fun p => p.1 = k) then m.map (fun p => if p.1 = k then (k, v) else p)
  else m ++ [(k, v)]

/-- the `fileMap` built by `UPDATE_PATHS` over the whole new batch. -/
def buildFileMap (files : List FileEntry) : List (String × Nat) :=
  files.foldl (fun m f => mapSet m (keyOf f) f.handle) []

/-- JS `Map.get`: the value stored under an exactly equal key. -/
def mapGet (m : List (String × Nat)) (k : String) : Option Nat :=
  (m.find? (fun p => p.1 = k)).map (fun p => p.2)

/-- the per-asset relink step of the `UPDATE_PATHS` reducer case: exact
`relativePath` lookup, then the first map entry whose key ends with the
last path segment of the stored `relativePath`, otherwise the asset is
returned unchanged. -/
def relinkVideo (m : List (String × Nat)) (v : VideoAsset) : VideoAsset :=
  match mapGet m v.relativePath with
  | some handle => { v with fileHandle := some handle }
  | none =>
    match m.find? (fun p => strEndsWith p.1 (lastSegment v.relativePath)) with
    | some p => { v with fileHandle := some p.2 }
    | none => v

/-- the whole `UPDATE_PATHS` action: every video is relinked against the
one file map built from the batch; collections are untouched. -/
def updatePaths (s : AppState) (files : List FileEntry) : AppState :=
  { s with videos := s.videos.map (relinkVideo (buildFileMap files)) }

/-- everything `handleUpdatePaths` surfaces to the user: the new state
via `dispatch` and a fixed `alert` message. -/
structure RelinkOutcome where
  state : AppState
  message : String
  deriving Repr, DecidableEq

/-- `handleUpdatePaths` from `App.tsx`. -/
def handleUpdatePaths (s : AppState) (files : List FileEntry) : RelinkOutcome :=
  { state := updatePaths s files
    message := "Paths updated. Please verify playback." }

/-- the number of assets left without a live handle — the "count of
unresolved assets" the specification speaks of; nothing in the source
computes it. -/
def unresolvedCount (s : AppState) : Nat :=
  (s.videos.filter (fun v => v.fileHandle = none)).length

/-- a subtitle track as it appears in the exported JSON document: `File`
objects are not serializable, so the document carries no usable handle. -/
def serializeTrack (t : SubtitleTrack) : SubtitleTrack :=
  { t with fileHandle := none }

/-- `handleExportData` from `App.tsx`: the persisted index document —
collections as they are, videos with `fileHandle: null`; subtitle
handles do not survive `JSON.stringify`. -/
def handleExportData (s : AppState) : AppState :=
  { collections := s.collections
    videos := s.videos.map (fun v =>
      { v with fileHandle := none, subtitles := v.subtitles.map serializeTrack }) }

/-- `handleImportData` from `App.tsx` on a well-formed index document
(`data.collections && data.videos` both present — arrays are always
truthy in JS): dispatch `LOAD_STATE` with the document as the new state. -/
def handleImportData (doc : AppState) : AppState :=
  { collections := doc.collections, videos := doc.videos }

/-- erase every session-scoped handle of a video (main and subtitle):
the part of a `VideoAsset` that is stable across sessions. -/
def stripHandles (v : VideoAsset) : VideoAsset :=
  { v with fileHandle := none, subtitles := v.subtitles.map serializeTrack }

/-- Modelled from the spec: the language rule exactly as the
specification words it — split the *stripped* (extension removed,
lower-cased) subtitle name on `"."` and take the second-to-last segment
exactly when it is two characters long, else the fallback `"en"`.  Used
only to compare the specified rule with the implemented `inferLanguage`. -/
def claimedLanguage (subName : String) : String :=
  let segs := splitOnChar '.' (strippedLowerName subName).data
  if 2 ≤ segs.length then
    let p := segs.getD (segs.length - 2) []
    if p.length = 2 then ⟨p⟩ else "en"
  else "en"

/-- a persisted asset used in the concrete relink scenarios: stored path
`A/B/movie.mp4`, no live handle. -/
def cexVideoA : VideoAsset :=
  { id := "id-a", collectionId := "col", fileName := "movie.mp4"
    relativePath := "A/B/movie.mp4", fileHandle := none, thumbnailUrl := none
    metadata := { title := "movie", plot := "", tags := [] }, size := 0, subtitles := [] }

/-- a second persisted asset, stored path `C/other.mkv`, no live handle. -/
def cexVideoB : VideoAsset :=
  { id := "id-b", collectionId := "col", fileName := "other.mkv"
    relativePath := "C/other.mkv", fileHandle := none, thumbnailUrl := none
    metadata := { title := "other", plot := "", tags := [] }, size := 0, subtitles := [] }

/-- a relink batch that matches neither asset, exactly nor by filename
suffix. -/
def cexBatch : List FileEntry := [{ name := "x.bin", relativePath := "X/x.bin", handle := 3 }]

/-- a persisted asset whose stored `relativePath` ends in `"/"`, so its
last path segment is empty. -/
def cexVideoSlash : VideoAsset :=
  { id := "id-s", collectionId := "col", fileName := "clip.mp4"
    relativePath := "A/B/", fileHandle := none, thumbnailUrl := none
    metadata := { title := "clip", plot := "", tags := [] }, size := 0, subtitles := [] }

end Vid

namespace Vid

theorem find?_first {α} (f : α → Bool) (l₁ l₂ : List α) (p : α)
    (h1 : ∀ q ∈ l₁, f q = false) (hp : f p = true) :
    (l₁ ++ p :: l₂).find? f = some p := by
  induction l₁ with
  | nil => simp [List.find?, hp]
  | cons a t ih =>
    have ha : f a = false := h1 a (List.mem_cons_self a t)
    simp only [List.cons_append, List.find?, ha]
    exact ih (fun q hq => h1 q (List.mem_cons_of_mem a hq))

theorem find?_none {α} (f : α → Bool) (l : List α)
    (h : ∀ x ∈ l, f x = false) : l.find? f = none := by
  induction l with
  | nil => rfl
  | cons a t ih =>
    have ha : f a = false := h a (List.mem_cons_self a t)
    simp only [List.find?, ha]
    exact ih (fun q hq => h q (List.mem_cons_of_mem a hq))

theorem find?_exists {α} (f : α → Bool) (l : List α)
    (h : ∃ x ∈ l, f x = true) : ∃ a, l.find? f = some a ∧ a ∈ l ∧ f a = true := by
  induction l with
  | nil => rcases h with ⟨x, hx, _⟩; exact absurd hx (List.not_mem_nil x)
  | cons a t ih =>
    by_cases ha : f a = true
    · exact ⟨a, by simp [List.find?, ha], List.mem_cons_self a t, ha⟩
    · have ha' : f a = false := by revert ha; cases f a <;> simp
      rcases h with ⟨x, hx, hfx⟩
      rcases List.mem_cons.mp hx with rfl | hxt
      · exact absurd hfx ha
      · rcases ih ⟨x, hxt, hfx⟩ with ⟨b, hfind, hmem, hfb⟩
        exact ⟨b, by simp [List.find?, ha', hfind], List.mem_cons_of_mem a hmem, hfb⟩

theorem startsWithL_nil (l : List Char) : startsWithL l [] = true := by
  cases l <;> rfl

theorem strEndsWith_empty (s : String) : strEndsWith s "" = true := by
  simp only [strEndsWith]
  exact startsWithL_nil _

theorem splitOnChar_ne_nil (c : Char) (l : List Char) : splitOnChar c l ≠ [] := by
  cases l with
  | nil => simp [splitOnChar]
  | cons a s =>
    simp only [splitOnChar]
    by_cases h : a = c
    · simp [h]
    · simp only [h, if_false]
      cases splitOnChar c s <;> simp

theorem splitOnChar_two_le (c : Char) (l : List Char) (h : c ∈ l) :
    2 ≤ (splitOnChar c l).length := by
  induction l with
  | nil => exact absurd h (List.not_mem_nil c)
  | cons a s ih =>
    simp only [splitOnChar]
    by_cases hac : a = c
    · simp only [hac, if_true, List.length_cons]
      have := splitOnChar_ne_nil c s
      cases hs : splitOnChar c s with
      | nil => exact absurd hs this
      | cons x t => simp
    · have hcs : c ∈ s := by
        rcases List.mem_cons.mp h with rfl | hs
        · exact absurd rfl hac
        · exact hs
      have h2 := ih hcs
      simp only [hac, if_false]
      cases hs : splitOnChar c s with
      | nil => exact absurd hs (splitOnChar_ne_nil c s)
      | cons x t =>
        rw [hs] at h2
        simp only [List.length_cons] at h2 ⊢
        omega

theorem lastElemD_cons_of_ne_nil (x : List Char) (t : List (List Char)) (d : List Char)
    (h : t ≠ []) : lastElemD (x :: t) d = lastElemD t d := by
  cases t with
  | nil => exact absurd rfl h
  | cons y t' => rfl

theorem splitOnChar_append_last (c : Char) (l : List Char) :
    lastElemD (splitOnChar c (l ++ [c])) [] = [] := by
  induction l with
  | nil => simp [splitOnChar, lastElemD]
  | cons a s ih =>
    simp only [List.cons_append, splitOnChar, List.append_eq]
    by_cases hac : a = c
    · simp only [hac, if_true]
      have hne := splitOnChar_ne_nil c (s ++ [c])
      rw [lastElemD_cons_of_ne_nil _ _ _ hne]
      exact ih
    · simp only [hac, if_false]
      have hmem : c ∈ s ++ [c] := by simp
      have h2 := splitOnChar_two_le c (s ++ [c]) hmem
      cases hs : splitOnChar c (s ++ [c]) with
      | nil => exact absurd hs (splitOnChar_ne_nil c (s ++ [c]))
      | cons x t =>
        rw [hs] at h2 ih
        have ht : t ≠ [] := by
          cases t with
          | nil => simp at h2
          | cons y t' => simp
        rw [lastElemD_cons_of_ne_nil _ _ _ ht]
        rw [lastElemD_cons_of_ne_nil _ _ _ ht] at ih
        exact ih

theorem lastSegment_of_trailing_slash (p : String) (h : strEndsWith p "/" = true) :
    lastSegment p = "" := by
  have hrev : ∃ r, p.data.reverse = '/' :: r := by
    simp only [strEndsWith] at h
    cases hp : p.data.reverse with
    | nil => rw [hp] at h; simp [startsWithL] at h
    | cons x r =>
      rw [hp] at h
      have : "/".data.reverse = ['/'] := rfl
      rw [this] at h
      simp only [startsWithL, Bool.and_eq_true, beq_iff_eq] at h
      exact ⟨r, by rw [h.1]⟩
  rcases hrev with ⟨r, hr⟩
  have hdata : p.data = r.reverse ++ ['/'] := by
    have := congrArg List.reverse hr
    simpa using this
  simp only [lastSegment, hdata]
  rw [splitOnChar_append_last]

theorem relinkVideo_exact (l₁ l₂ : List (String × Nat)) (p : String × Nat) (v : VideoAsset)
    (h1 : ∀ q ∈ l₁, q.1 ≠ v.relativePath) (hp : p.1 = v.relativePath) :
    relinkVideo (l₁ ++ p :: l₂) v = { v with fileHandle := some p.2 } := by
  have hfind : (l₁ ++ p :: l₂).find? (fun q => q.1 = v.relativePath) = some p := by
    apply find?_first
    · intro q hq; simp [h1 q hq]
    · simp [hp]
  simp [relinkVideo, mapGet, hfind]

theorem mapGet_none_of_no_key (m : List (String × Nat)) (k : String)
    (h : ∀ q ∈ m, q.1 ≠ k) : mapGet m k = none := by
  unfold mapGet
  rw [find?_none]
  · rfl
  · intro q hq; simp [h q hq]

theorem relinkVideo_suffix (m l₁ l₂ : List (String × Nat)) (p : String × Nat) (v : VideoAsset)
    (hm : m = l₁ ++ p :: l₂)
    (hexact : ∀ q ∈ m, q.1 ≠ v.relativePath)
    (h1 : ∀ q ∈ l₁, strEndsWith q.1 (lastSegment v.relativePath) = false)
    (hp : strEndsWith p.1 (lastSegment v.relativePath) = true) :
    relinkVideo m v = { v with fileHandle := some p.2 } := by
  have hget : mapGet m v.relativePath = none := mapGet_none_of_no_key m _ hexact
  have hfind : m.find? (fun q => strEndsWith q.1 (lastSegment v.relativePath)) = some p := by
    rw [hm]; exact find?_first _ l₁ l₂ p h1 hp
  simp [relinkVideo, hget, hfind]

theorem relinkVideo_total_miss (m : List (String × Nat)) (v : VideoAsset)
    (h : ∀ q ∈ m, q.1 ≠ v.relativePath ∧ strEndsWith q.1 (lastSegment v.relativePath) = false) :
    relinkVideo m v = v := by
  have hget : mapGet m v.relativePath = none :=
    mapGet_none_of_no_key m _ (fun q hq => (h q hq).1)
  have hfind : m.find? (fun q => strEndsWith q.1 (lastSegment v.relativePath)) = none :=
    find?_none _ m (fun q hq => (h q hq).2)
  simp [relinkVideo, hget, hfind]

theorem mapSet_ne_nil (m : List (String × Nat)) (k : String) (v : Nat) : mapSet m k v ≠ [] := by
  unfold mapSet
  split
  · rename_i h
    have hm : m ≠ [] := by
      intro hnil; rw [hnil] at h; simp at h
    simpa using hm
  · simp

theorem mapSet_head_key (m : List (String × Nat)) (k : String) (v : Nat) (hm : m ≠ []) :
    (mapSet m k v).head?.map Prod.fst = m.head?.map Prod.fst := by
  unfold mapSet
  split
  · cases m with
    | nil => exact absurd rfl hm
    | cons x t =>
      simp only [List.map_cons, List.head?_cons, Option.map_some]
      by_cases hx : x.1 = k
      · simp [hx]
      · simp [hx]
  · cases m with
    | nil => exact absurd rfl hm
    | cons x t => simp

theorem foldl_mapSet_head_key (fs : List FileEntry) :
    ∀ m : List (String × Nat), m ≠ [] →
      fs.foldl (fun acc f => mapSet acc (keyOf f) f.handle) m ≠ []
      ∧ (fs.foldl (fun acc f => mapSet acc (keyOf f) f.handle) m).head?.map Prod.fst
          = m.head?.map Prod.fst := by
  induction fs with
  | nil => intro m hm; exact ⟨hm, rfl⟩
  | cons f fs ih =>
    intro m hm
    simp only [List.foldl_cons]
    have h1 : mapSet m (keyOf f) f.handle ≠ [] := mapSet_ne_nil m (keyOf f) f.handle
    rcases ih _ h1 with ⟨hne, hkey⟩
    exact ⟨hne, hkey.trans (mapSet_head_key m (keyOf f) f.handle hm)⟩

theorem buildFileMap_head_key (f : FileEntry) (fs : List FileEntry) :
    (buildFileMap (f :: fs)).head?.map Prod.fst = some (keyOf f) := by
  unfold buildFileMap
  simp only [List.foldl_cons]
  have h0 : mapSet [] (keyOf f) f.handle = [(keyOf f, f.handle)] := by simp [mapSet]
  rcases foldl_mapSet_head_key fs (mapSet [] (keyOf f) f.handle) (by rw [h0]; simp) with ⟨_, hkey⟩
  rw [hkey, h0]
  rfl

theorem serializeTrack_idem (t : SubtitleTrack) :
    serializeTrack (serializeTrack t) = serializeTrack t := rfl

theorem stripHandles_idem (v : VideoAsset) : stripHandles (stripHandles v) = stripHandles v := by
  simp [stripHandles, List.map_map]
  exact fun a ha => rfl

theorem replaceSrtTimes_no_comma (l : List Char) (hc : ',' ∉ l) : replaceSrtTimes l = l := by
  induction l using replaceSrtTimes.induct with
  | case1 a b c d e f g h i s hd ih => simp at hc
  | case2 a b c d e f g h i s hd ih => simp at hc
  | case3 c s hshape ih =>
    rw [replaceSrtTimes]
    · rw [ih (fun hm => hc (List.mem_cons_of_mem c hm))]
    · exact hshape
  | case4 => rfl

theorem normalizeEOL_no_cr (l : List Char) (h : '\r' ∉ l) : normalizeEOL l = l := by
  induction l using normalizeEOL.induct with
  | case1 => rfl
  | case2 s ih => simp at h
  | case3 s hs ih => simp at h
  | case4 c s hs hne ih =>
    rw [normalizeEOL]
    · rw [ih (fun hm => h (List.mem_cons_of_mem c hm))]
    · exact hs
    · exact hne

/-- C1: the spec says the ASS transcoder takes the 2nd and 3rd
comma-separated fields of a `Dialogue:` record as start/end and the text
after the 9th comma following the first, so that
`Dialogue: 0,0:00:05.00,0:00:07.00,Default,,0,0,0,,Hello, world` should
yield the cue `00:00:05.000 --> 00:00:07.000` with text `Hello, world`.
The code actually indexes the fields of the string *after* the first
comma, so `parts[1]`/`parts[2]` are the end and the style (the code's
own comments claim otherwise), and the 9th comma after the first is the
comma *inside* the dialogue text: the record evaluates to the cue
`0:00:07.000 --> Default.000` with text ` world`. -/
theorem assToVtt_dialogue_record_output :
    assToVtt "Dialogue: 0,0:00:05.00,0:00:07.00,Default,,0,0,0,,Hello, world"
      = "WEBVTT\n\n0:00:07.000 --> Default.000\n world\n\n" := by decide

/-- C2: thumbnail selection follows the exact priority order — a
priority-name image beats a "poster"-substring image beats an
exact-base-name image beats the generated fallback; whenever a
higher-priority class is present in the directory group an image of that
class is the one selected (`hU` records that object URLs are non-empty
strings, which is what the JS truthiness test `if (!thumbUrl)` relies
on). -/
theorem thumbnail_priority_order (assets : List ImageAsset) (base : String)
    (hU : ∀ a ∈ assets, a.url ≠ "") :
    ((∃ a ∈ assets, isPriorityImage a = true) →
      ∃ a ∈ assets, isPriorityImage a = true ∧ selectThumbnail assets base = some a.url)
    ∧ ((∀ a ∈ assets, isPriorityImage a = false) →
      (∃ a ∈ assets, isPosterImage a = true) →
      ∃ a ∈ assets, isPosterImage a = true ∧ selectThumbnail assets base = some a.url)
    ∧ ((∀ a ∈ assets, isPriorityImage a = false ∧ isPosterImage a = false) →
      (∃ a ∈ assets, isExactImage base a = true) →
      ∃ a ∈ assets, isExactImage base a = true ∧ selectThumbnail assets base = some a.url)
    ∧ ((∀ a ∈ assets, isPriorityImage a = false ∧ isPosterImage a = false
          ∧ isExactImage base a = false) →
      selectThumbnail assets base = none) := by
  refine ⟨?_, ?_, ?_, ?_⟩
  · intro h
    obtain ⟨a, hfind, hmem, hfa⟩ := find?_exists isPriorityImage assets h
    refine ⟨a, hmem, hfa, ?_⟩
    have hfal : jsFalsy (some a.url) = false := by simp [jsFalsy, hU a hmem]
    simp [selectThumbnail, hfind, hfal]
  · intro hA hB
    have hfindA : assets.find? isPriorityImage = none := find?_none _ _ hA
    obtain ⟨a, hfind, hmem, hfa⟩ := find?_exists isPosterImage assets hB
    refine ⟨a, hmem, hfa, ?_⟩
    have hfal : jsFalsy (some a.url) = false := by simp [jsFalsy, hU a hmem]
    have htru : jsFalsy (none : Option String) = true := rfl
    simp [selectThumbnail, hfindA, hfind, htru, hfal]
  · intro hAB hC
    have hfindA : assets.find? isPriorityImage = none :=
      find?_none _ _ (fun x hx => (hAB x hx).1)
    have hfindB : assets.find? isPosterImage = none :=
      find?_none _ _ (fun x hx => (hAB x hx).2)
    obtain ⟨a, hfind, hmem, hfa⟩ := find?_exists (isExactImage base) assets hC
    refine ⟨a, hmem, hfa, ?_⟩
    have hfal : jsFalsy (some a.url) = false := by simp [jsFalsy, hU a hmem]
    have htru : jsFalsy (none : Option String) = true := rfl
    simp [selectThumbnail, hfindA, hfindB, hfind, htru, hfal]
  · intro hABC
    have hfindA : assets.find? isPriorityImage = none :=
      find?_none _ _ (fun x hx => (hABC x hx).1)
    have hfindB : assets.find? isPosterImage = none :=
      find?_none _ _ (fun x hx => (hABC x hx).2.1)
    have hfindC : assets.find? (isExactImage base) = none :=
      find?_none _ _ (fun x hx => (hABC x hx).2.2)
    simp [selectThumbnail, hfindA, hfindB, hfindC]

/-- C2 witness: in a directory with an exact-name image and a
priority-name image ("cover"), the priority-name image is selected. -/
theorem thumbnail_priority_order_witness :
    ∃ a ∈ [ImageAsset.mk "moviename" "u0", ImageAsset.mk "cover" "u1"],
      isPriorityImage a = true
      ∧ selectThumbnail [ImageAsset.mk "moviename" "u0", ImageAsset.mk "cover" "u1"] "moviename"
          = some a.url :=
  (thumbnail_priority_order [ImageAsset.mk "moviename" "u0", ImageAsset.mk "cover" "u1"]
      "moviename" (by decide)).1
    ⟨ImageAsset.mk "cover" "u1", by decide, by decide⟩

/-- C3: relinking binds the asset's handle to the lookup entry whose key
exactly equals the stored `relativePath` (first conjunct, with `l₁` the
entries before it); with no exact match, to the *first* entry whose key
ends with the last path segment of the stored `relativePath` (second
conjunct); and leaves the asset untouched when neither exists (third
conjunct). -/
theorem relink_match_order (m : List (String × Nat)) (v : VideoAsset) :
    (∀ l₁ l₂ p, m = l₁ ++ p :: l₂ → (∀ q ∈ l₁, q.1 ≠ v.relativePath) →
      p.1 = v.relativePath → relinkVideo m v = { v with fileHandle := some p.2 })
    ∧ (∀ l₁ l₂ p, m = l₁ ++ p :: l₂ → (∀ q ∈ m, q.1 ≠ v.relativePath) →
      (∀ q ∈ l₁, strEndsWith q.1 (lastSegment v.relativePath) = false) →
      strEndsWith p.1 (lastSegment v.relativePath) = true →
      relinkVideo m v = { v with fileHandle := some p.2 })
    ∧ ((∀ q ∈ m, q.1 ≠ v.relativePath ∧ strEndsWith q.1 (lastSegment v.relativePath) = false) →
      relinkVideo m v = v) := by
  refine ⟨?_, ?_, relinkVideo_total_miss m v⟩
  · intro l₁ l₂ p hm h1 hp
    subst hm
    exact relinkVideo_exact l₁ l₂ p v h1 hp
  · intro l₁ l₂ p hm hex h1 hp
    exact relinkVideo_suffix m l₁ l₂ p v hm hex h1 hp

/-- C3 witness: with no exact match, asset `A/B/movie.mp4` binds to the
entry `X/movie.mp4` by filename-suffix match, skipping `X/other.mkv`. -/
theorem relink_match_order_witness :
    relinkVideo [("X/other.mkv", 5), ("X/movie.mp4", 7)] cexVideoA
      = { cexVideoA with fileHandle := some 7 } :=
  (relink_match_order [("X/other.mkv", 5), ("X/movie.mp4", 7)] cexVideoA).2.1
    [("X/other.mkv", 5)] [] ("X/movie.mp4", 7) rfl (by decide) (by decide) (by decide)

/-- C4 counterexample: the code matches subtitles by
`sub.name.toLowerCase().startsWith(base)` on the *full* file name, not
the stripped name: the video `Show.S.mkv` (base `show.s`) acquires the
sidecar `show.srt` even though the stripped lower-cased name `show` does
not start with `show.s`, refuting "exactly those subtitle files whose
stripped, lower-cased name starts with the video's baseName". -/
theorem subtitle_prefix_cex :
    isVideoFile "Show.S.mkv" = true
    ∧ strippedLowerName "Show.S.mkv" = "show.s"
    ∧ isSubtitleFile "show.srt" = true
    ∧ matchSubtitles ["show.srt"] (strippedLowerName "Show.S.mkv") = ["show.srt"]
    ∧ strStartsWith (strippedLowerName "show.srt") (strippedLowerName "Show.S.mkv") = false := by
  decide

/-- C4 amended: exactly those subtitle files whose *full* lower-cased
file name (extension included) starts with the video's baseName are
attached; the spec's examples hold: `Movie.mp4` acquires `movie.srt`,
`movie.en.srt` and `movie.en.forced.srt` but not `my_movie.srt`. -/
theorem subtitle_prefix_full_name :
    (∀ (subsInFolder : List String) (base subName : String),
      subName ∈ matchSubtitles subsInFolder base ↔
        subName ∈ subsInFolder ∧ strStartsWith (strToLower subName) base = true)
    ∧ matchSubtitles ["movie.srt", "movie.en.srt", "movie.en.forced.srt", "my_movie.srt"]
        (strippedLowerName "Movie.mp4")
      = ["movie.srt", "movie.en.srt", "movie.en.forced.srt"] := by
  refine ⟨?_, by decide⟩
  intro subs base n
  simp [matchSubtitles, List.mem_filter]

/-- C4 witness: a concrete instance of the membership characterisation. -/
theorem subtitle_prefix_full_name_witness :
    "movie.en.srt" ∈ matchSubtitles ["movie.en.srt"] "movie" :=
  (subtitle_prefix_full_name.1 ["movie.en.srt"] "movie" "movie.en.srt").mpr
    ⟨by decide, by decide⟩

/-- C5 counterexample: the spec's rule — split the *stripped* name on
"." and take the second-to-last segment exactly when it has two
characters — yields `en` on `movie.fr.srt` (the stripped name `movie.fr`
splits to `[movie, fr]`, whose second-to-last segment is `movie`), while
the code (and the spec's own example) yields `fr`: the code splits the
full lower-cased file name instead. -/
theorem language_rule_cex :
    inferLanguage "movie.fr.srt" = "fr" ∧ claimedLanguage "movie.fr.srt" = "en" := by decide

/-- C5 amended: the language is obtained by splitting the *full*
lower-cased file name on "." and taking the second-to-last segment
exactly when there are more than two segments and it is two characters
long, defaulting to `"en"`; `movie.fr.srt → fr`, `movie.srt → en`,
`movie.french.srt → en`. -/
theorem language_full_name_rule :
    inferLanguage "movie.fr.srt" = "fr"
    ∧ inferLanguage "movie.srt" = "en"
    ∧ inferLanguage "movie.french.srt" = "en"
    ∧ ∀ subName : String,
        inferLanguage subName =
          (let parts := splitOnChar '.' (strToLower subName).data
           if 2 < parts.length ∧ (parts.getD (parts.length - 2) []).length = 2
           then ⟨parts.getD (parts.length - 2) []⟩
           else "en") := by
  refine ⟨by decide, by decide, by decide, ?_⟩
  intro subName
  simp only [inferLanguage]
  by_cases h1 : 2 < (splitOnChar '.' (strToLower subName).data).length
  · by_cases h2 : ((splitOnChar '.' (strToLower subName).data).getD
        ((splitOnChar '.' (strToLower subName).data).length - 2) []).length = 2
    · simp [h1, h2]
    · simp [h1, h2]
  · simp [h1]

/-- C6: Format A conversion is purely syntactic — the output is the
`WEBVTT` header followed by the input with line endings normalised and
every `HH:MM:SS,mmm` pattern rewritten with a period (second conjunct);
text containing neither a comma nor a carriage return passes through
unchanged (third conjunct); and
`00:00:01,000 --> 00:00:02,000` converts to
`00:00:01.000 --> 00:00:02.000` (first conjunct). -/
theorem srtToVtt_syntactic (s : String) :
    srtToVtt "00:00:01,000 --> 00:00:02,000" = "WEBVTT\n\n00:00:01.000 --> 00:00:02.000"
    ∧ srtToVtt s = ⟨"WEBVTT\n\n".data ++ replaceSrtTimes (normalizeEOL s.data)⟩
    ∧ (',' ∉ s.data → '\r' ∉ s.data → srtToVtt s = ⟨"WEBVTT\n\n".data ++ s.data⟩) := by
  refine ⟨by decide, rfl, ?_⟩
  intro hc hr
  simp only [srtToVtt]
  rw [normalizeEOL_no_cr s.data hr, replaceSrtTimes_no_comma s.data hc]

/-- C6 witness: comma-free, CR-free text is only prefixed with the
header. -/
theorem srtToVtt_syntactic_witness :
    srtToVtt "hello subtitle text" = "WEBVTT\n\nhello subtitle text" := by
  have h := (srtToVtt_syntactic "hello subtitle text").2.2 (by decide) (by decide)
  exact h.trans (by decide)

/-- C7: exporting the index and re-importing the exported document
reproduces the state exactly up to session-scoped file handles: the
collections are identical, the re-imported videos are the originals with
handles erased, and metadata, tag sets and thumbnail URLs coincide
video by video (an exported thumbnail URL string is preserved verbatim;
whether the blob it names is still alive is outside the data model). -/
theorem export_import_round_trip (s : AppState) :
    handleImportData (handleExportData s)
      = { collections := s.collections, videos := s.videos.map stripHandles }
    ∧ (handleImportData (handleExportData s)).collections = s.collections
    ∧ (handleImportData (handleExportData s)).videos.map stripHandles
        = s.videos.map stripHandles
    ∧ (handleImportData (handleExportData s)).videos.map (fun v => v.metadata)
        = s.videos.map (fun v => v.metadata)
    ∧ (handleImportData (handleExportData s)).videos.map (fun v => v.metadata.tags)
        = s.videos.map (fun v => v.metadata.tags)
    ∧ (handleImportData (handleExportData s)).videos.map (fun v => v.thumbnailUrl)
        = s.videos.map (fun v => v.thumbnailUrl) := by
  refine ⟨rfl, rfl, ?_, ?_, ?_, ?_⟩
  · show (s.videos.map stripHandles).map stripHandles = s.videos.map stripHandles
    rw [List.map_map]
    have h2 : stripHandles ∘ stripHandles = stripHandles := funext stripHandles_idem
    rw [h2]
  · show (s.videos.map stripHandles).map (fun v => v.metadata)
        = s.videos.map (fun v => v.metadata)
    rw [List.map_map]
    rfl
  · show (s.videos.map stripHandles).map (fun v => v.metadata.tags)
        = s.videos.map (fun v => v.metadata.tags)
    rw [List.map_map]
    rfl
  · show (s.videos.map stripHandles).map (fun v => v.thumbnailUrl)
        = s.videos.map (fun v => v.thumbnailUrl)
    rw [List.map_map]
    rfl

/-- C8: with no metadata sidecar, an ingested video's metadata is the
default (title = file name without extension, empty plot, no tags); with
a sidecar, the parser output replaces the defaults wholesale, every
field at once — the merged metadata *is* the parser output. -/
theorem metadata_defaults_merge :
    (∀ fileName : String,
      ingestMetadata fileName none = { title := jsStripExt fileName, plot := "", tags := [] })
    ∧ (∀ (fileName : String) (doc : NFODoc),
      ingestMetadata fileName (some doc) = parseNFO doc) :=
  ⟨fun _ => rfl, fun _ _ => rfl⟩

/-- C9 counterexample: on a total relink miss the asset is retained with
its handle still absent (first two conjuncts), but no count of
unresolved assets is surfaced: the only user-visible feedback besides
the state is a message that is identical whether one or two assets
remain unresolved. -/
theorem relink_no_count_cex :
    (handleUpdatePaths { collections := [], videos := [cexVideoA] } cexBatch).state.videos
        = [cexVideoA]
    ∧ unresolvedCount
        (handleUpdatePaths { collections := [], videos := [cexVideoA] } cexBatch).state = 1
    ∧ unresolvedCount
        (handleUpdatePaths { collections := [], videos := [cexVideoA, cexVideoB] } cexBatch).state
        = 2
    ∧ (handleUpdatePaths { collections := [], videos := [cexVideoA] } cexBatch).message
        = (handleUpdatePaths { collections := [], videos := [cexVideoA, cexVideoB] } cexBatch).message := by
  decide

/-- C9 amended: an asset matching no batch entry (neither exactly nor by
filename suffix) is retained unchanged — its handle stays absent — the
relink operation is total (no exception), and the caller receives only
the updated list together with a fixed notification message; no
unresolved count is computed. -/
theorem relink_total_miss (s : AppState) (files : List FileEntry) (v : VideoAsset)
    (hv : v ∈ s.videos)
    (hmiss : ∀ p ∈ buildFileMap files,
      p.1 ≠ v.relativePath ∧ strEndsWith p.1 (lastSegment v.relativePath) = false) :
    v ∈ (handleUpdatePaths s files).state.videos
    ∧ relinkVideo (buildFileMap files) v = v
    ∧ (handleUpdatePaths s files).message = "Paths updated. Please verify playback." := by
  have hrel : relinkVideo (buildFileMap files) v = v := relinkVideo_total_miss _ v hmiss
  refine ⟨?_, hrel, rfl⟩
  show v ∈ s.videos.map (relinkVideo (buildFileMap files))
  rw [List.mem_map]
  exact ⟨v, hv, hrel⟩

/-- C9 witness: the concrete total-miss scenario. -/
theorem relink_total_miss_witness :
    cexVideoA ∈
      (handleUpdatePaths { collections := [], videos := [cexVideoA] } cexBatch).state.videos
    ∧ relinkVideo (buildFileMap cexBatch) cexVideoA = cexVideoA
    ∧ (handleUpdatePaths { collections := [], videos := [cexVideoA] } cexBatch).message
        = "Paths updated. Please verify playback." :=
  relink_total_miss { collections := [], videos := [cexVideoA] } cexBatch cexVideoA
    (by decide) (by decide)

/-- C10: when the stored `relativePath` ends in `"/"` its last path
segment is empty, every lookup key ends with the empty string, and a
relink with no exact match binds the asset to the first entry of the
lookup — whose key is the key of the first file of the batch. -/
theorem relink_trailing_slash_first_entry (v : VideoAsset) (files : List FileEntry)
    (p : String × Nat)
    (hslash : strEndsWith v.relativePath "/" = true)
    (hexact : ∀ q ∈ buildFileMap files, q.1 ≠ v.relativePath)
    (hhead : (buildFileMap files).head? = some p) :
    relinkVideo (buildFileMap files) v = { v with fileHandle := some p.2 }
    ∧ ∀ f fs, files = f :: fs → p.1 = keyOf f := by
  have hseg : lastSegment v.relativePath = "" := lastSegment_of_trailing_slash _ hslash
  have hget : mapGet (buildFileMap files) v.relativePath = none :=
    mapGet_none_of_no_key _ _ hexact
  obtain ⟨t, hm⟩ : ∃ t, buildFileMap files = p :: t := by
    cases hbm : buildFileMap files with
    | nil => rw [hbm] at hhead; simp at hhead
    | cons x t =>
      rw [hbm] at hhead
      simp only [List.head?_cons, Option.some.injEq] at hhead
      exact ⟨t, by rw [hhead]⟩
  constructor
  · have hfind : (buildFileMap files).find?
        (fun q => strEndsWith q.1 (lastSegment v.relativePath)) = some p := by
      rw [hm, hseg]
      exact List.find?_cons_of_pos _ (strEndsWith_empty _)
    simp [relinkVideo, hget, hfind]
  · intro f fs hf
    have hk := buildFileMap_head_key f fs
    rw [← hf, hhead] at hk
    simpa using hk

/-- C10 witness: asset with stored path `A/B/` binds to the first entry
of a two-file batch. -/
theorem relink_trailing_slash_first_entry_witness :
    relinkVideo
        (buildFileMap
          [{ name := "a.mp4", relativePath := "X/a.mp4", handle := 9 },
            { name := "b.mp4", relativePath := "Y/b.mp4", handle := 10 }]) cexVideoSlash
      = { cexVideoSlash with fileHandle := some 9 } :=
  (relink_trailing_slash_first_entry cexVideoSlash
      [{ name := "a.mp4", relativePath := "X/a.mp4", handle := 9 },
        { name := "b.mp4", relativePath := "Y/b.mp4", handle := 10 }]
      ("X/a.mp4", 9) (by decide) (by decide) (by decide)).1

end Vid

